import Mathlib

/-!
# Verification of the `gopinyin` terminal flashcard application

Shallow embedding of the interactive state machine of `src/main.go` and the
vocabulary data of `src/words/words.go`.  The Go program is a bubbletea
update loop: a `model` value, an `Update` function consuming key messages
and `ExampleMsg` fetch results, and a command channel through which at most
a `fetchExample` command or `tea.Quit` is emitted per step.

Modelling conventions:
* Go strings are Lean `String`s.
* The slice `words []Words.Word` is a `List Word`; `currentIndex` is a `Nat`
  (in Go it is a signed `int`, but every write keeps it non-negative, and
  Go's `(i-1+n) % n` on `0 ≤ i` equals the natural `(i+n-1) % n`).
* The fixed four-element slice `inputs []textinput.Model` is a function
  `Fin 4 → TextInput`; the library text input is modelled by its value,
  focus flag and character limit, with key handling restricted to what the
  claims touch: a focused input appends printable characters (and space)
  up to its character limit, every other key leaves the value unchanged,
  and a blurred input ignores input entirely (the bubbles library behaves
  this way for the keys the program routes to it).
* `tea.Cmd` results are the inductive `Cmd`: `none`, `quit`, or
  `fetch word index` standing for the closure `fetchExample(word, index)`.
* `m.words[i].Example = s` is `setExample`; the Go expression panics out of
  bounds, and every theorem touching it carries an in-bounds hypothesis.
-/

/-- A vocabulary entry, from `words.go` (`type Word struct`). -/
structure Word where
  pinyin : String
  chinese : String
  definition : String
  exampleText : String
  deriving Repr, DecidableEq

/-- State of one `textinput.Model` as far as this program exercises it. -/
structure TextInput where
  value : String
  focused : Bool
  charLimit : Nat
  deriving Repr, DecidableEq

/-- `textinput.Model.Focus`. -/
def TextInput.focus (t : TextInput) : TextInput :=
  { t with focused := true }

/-- `textinput.Model.Blur`. -/
def TextInput.blur (t : TextInput) : TextInput :=
  { t with focused := false }

/-- `textinput.Model.Reset`: clears the value, focus state untouched. -/
def TextInput.reset (t : TextInput) : TextInput :=
  { t with value := "" }

/-- The key messages the program distinguishes.  `tea.KeyMsg` values are
matched by `msg.Type` in Adding mode (ctrl+c, esc, tab, shift+tab, enter)
and by `msg.String()` in Browsing mode ("ctrl+c", "q", "right", "l",
"left", "h", " ", "enter", "a"); plain letters arrive as `char`. -/
inductive Key where
  | ctrlC
  | esc
  | tab
  | shiftTab
  | enter
  | space
  | left
  | right
  | char (c : Char)
  deriving Repr, DecidableEq

/-- `textinput.Model.Update` on a key message: a focused input appends
printable characters (space included) while under its character limit;
all other keys leave the value alone. -/
def TextInput.update (t : TextInput) (k : Key) : TextInput :=
  match k with
  | Key.char c =>
      if t.focused && decide (t.value.length < t.charLimit) then
        { t with value := t.value.push c }
      else t
  | Key.space =>
      if t.focused && decide (t.value.length < t.charLimit) then
        { t with value := t.value.push ' ' }
      else t
  | _ => t

/-- The application state, from `main.go` (`type model struct`). -/
structure Model where
  words : List Word
  currentIndex : Nat
  showDetails : Bool
  addingNewCard : Bool
  inputs : Fin 4 → TextInput
  focusIndex : Int
  loadingExample : Bool

/-- Messages consumed by `model.Update`: key input or an `ExampleMsg`
carrying the fetched example (`Error` is `none` on success, or the error
text rendered by `fmt.Sprintf("Error: %v", err)`). -/
inductive Msg where
  | key (k : Key)
  | exampleMsg (index : Nat) (exampleText : String) (error : Option String)
  deriving Repr, DecidableEq

/-- The commands `model.Update` can emit: nothing, `tea.Quit`, or the
`fetchExample(word, index)` command. -/
inductive Cmd where
  | none
  | quit
  | fetch (word : Word) (index : Nat)
  deriving Repr, DecidableEq

/-- The seed deck `Words.ExampleWords` from `words.go`. -/
def exampleWords : List Word :=
  [ { pinyin := "nǐ hǎo", chinese := "你好", definition := "Hello", exampleText := "" },
    { pinyin := "xiè xiè", chinese := "谢谢", definition := "Thank you", exampleText := "" },
    { pinyin := "zǎo", chinese := "早", definition := "Morning",
      exampleText := "Zǎo, good morning!" },
    { pinyin := "péngyou", chinese := "朋友", definition := "Friend",
      exampleText := "Wǒ de péngyou hěn hǎo." },
    { pinyin := "chī fàn", chinese := "吃饭", definition := "Eat meal",
      exampleText := "Wǒmen qù chī fàn." },
    { pinyin := "hǎo", chinese := "好", definition := "Good",
      exampleText := "Hěn hǎo, that is good!" },
    { pinyin := "shuǐ", chinese := "水", definition := "Water",
      exampleText := "Wǒ yào yī bēi shuǐ." },
    { pinyin := "ài", chinese := "爱", definition := "Love",
      exampleText := "Wǒ ài nǐ means I love you." },
    { pinyin := "rén", chinese := "人", definition := "Person",
      exampleText := "Měi gè rén dōu bù tóng." },
    { pinyin := "jiā", chinese := "家", definition := "Home/Family",
      exampleText := "Wǒ de jiā zài Běijīng." } ]

/-- `initialModel` from `main.go`: seed deck, index 0, no details, not
adding, four fresh text inputs (each created, given a 50-rune limit and
focused), and the Go zero values `focusIndex = 0`,
`loadingExample = false`. -/
def initialModel : Model :=
  { words := exampleWords
    currentIndex := 0
    showDetails := false
    addingNewCard := false
    inputs := fun _ => { value := "", focused := true, charLimit := 50 }
    focusIndex := 0
    loadingExample := false }

/-- `m.words[i].Example = text`: in-place update of the example field of
the word at index `i` (identity when `i` is out of range, where Go would
panic; theorems about it carry an in-bounds hypothesis). -/
def setExample : List Word → Nat → String → List Word
  | [], _, _ => []
  | w :: ws, 0, text => { w with exampleText := text } :: ws
  | w :: ws, Nat.succ i, text => w :: setExample ws i text

/-- `m.words[m.currentIndex]` as a total read; in every state the program
reaches, the index is in bounds, so the default is never consulted. -/
def getWord (ws : List Word) (i : Nat) : Word :=
  (ws.get? i).getD { pinyin := "", chinese := "", definition := "", exampleText := "" }

/-- The per-input text-update loop `for i := range m.inputs {
m.inputs[i], cmd = m.inputs[i].Update(msg) }` run at the end of every
key-message branch of the Adding-mode handler. -/
def textUpdate (m : Model) (k : Key) : Model :=
  { m with inputs := fun i => (m.inputs i).update k }

/-- Tab / Shift-Tab focus movement in Adding mode: increment or decrement
`focusIndex`, clamp past the ends to the other end, then focus exactly the
input at the new index and blur the rest. -/
def tabShift (m : Model) (delta : Int) : Model :=
  let fi := m.focusIndex + delta
  let fi := if fi > 4 - 1 then 0 else if fi < 0 then 4 - 1 else fi
  { m with
    focusIndex := fi
    inputs := fun i =>
      if (i.val : Int) = fi then (m.inputs i).focus else (m.inputs i).blur }

/-- The saved card built by the Enter branch: the first three buffers,
and `Example: ""` (the fourth buffer is not consulted). -/
def newCardOf (m : Model) : Word :=
  { chinese := (m.inputs 0).value
    pinyin := (m.inputs 1).value
    definition := (m.inputs 2).value
    exampleText := "" }

/-- The Adding-mode (`m.addingNewCard`) key handler of `model.Update`:
ctrl+c and esc leave Adding mode immediately; tab and shift+tab move
focus; enter saves when the first three buffers are non-empty (append the
new card, leave Adding mode, jump to the new last index, reset all four
buffers, focus index 0); finally every branch except ctrl+c/esc routes
the key through all four text inputs. -/
def addingKeyUpdate (m : Model) (k : Key) : Model × Cmd :=
  match k with
  | Key.ctrlC => ({ m with addingNewCard := false }, Cmd.none)
  | Key.esc => ({ m with addingNewCard := false }, Cmd.none)
  | Key.tab => (textUpdate (tabShift m 1) Key.tab, Cmd.none)
  | Key.shiftTab => (textUpdate (tabShift m (-1)) Key.shiftTab, Cmd.none)
  | Key.enter =>
      let m1 :=
        if (m.inputs 0).value ≠ "" ∧ (m.inputs 1).value ≠ "" ∧
            (m.inputs 2).value ≠ "" then
          let ws := m.words ++ [newCardOf m]
          { m with
            words := ws
            addingNewCard := false
            currentIndex := ws.length - 1
            inputs := fun i => (m.inputs i).reset
            focusIndex := 0 }
        else m
      (textUpdate m1 Key.enter, Cmd.none)
  | _ => (textUpdate m k, Cmd.none)

/-- The Browsing-mode key handler of `model.Update`: quit on ctrl+c/q,
cyclic navigation on right/l and left/h (both clear `showDetails` and
`loadingExample`), detail toggle on space/enter (toggling on starts a
fetch for the current card and sets `loadingExample`), and `a` enters
Adding mode focusing input 0. -/
def browsingKeyUpdate (m : Model) (k : Key) : Model × Cmd :=
  if k = Key.ctrlC ∨ k = Key.char 'q' then
    (m, Cmd.quit)
  else if k = Key.right ∨ k = Key.char 'l' then
    ({ m with currentIndex := (m.currentIndex + 1) % m.words.length
              showDetails := false
              loadingExample := false }, Cmd.none)
  else if k = Key.left ∨ k = Key.char 'h' then
    ({ m with currentIndex := (m.currentIndex + m.words.length - 1) % m.words.length
              showDetails := false
              loadingExample := false }, Cmd.none)
  else if k = Key.space ∨ k = Key.enter then
    if !m.showDetails then
      ({ m with showDetails := true, loadingExample := true },
        Cmd.fetch (getWord m.words m.currentIndex) m.currentIndex)
    else
      ({ m with showDetails := false, loadingExample := false }, Cmd.none)
  else if k = Key.char 'a' then
    ({ m with addingNewCard := true
              focusIndex := 0
              inputs := fun i =>
                if i.val = 0 then (m.inputs i).focus else (m.inputs i).blur },
      Cmd.none)
  else (m, Cmd.none)

/-- The `ExampleMsg` branch of `model.Update`: clear `loadingExample`,
then write the example (or `"Error: "` plus the error text) into the word
at the message's index. -/
def exampleUpdate (m : Model) (index : Nat) (exampleText : String)
    (error : Option String) : Model × Cmd :=
  let m1 := { m with loadingExample := false }
  match error with
  | some e => ({ m1 with words := setExample m1.words index ("Error: " ++ e) }, Cmd.none)
  | none => ({ m1 with words := setExample m1.words index exampleText }, Cmd.none)

/-- `model.Update` from `main.go`.  In the Go source the Adding-mode block
handles (and returns on) key messages when `addingNewCard` is set, an
`ExampleMsg` falls through to its own switch in either mode, and key
messages outside Adding mode reach the navigation switch; since key and
`ExampleMsg` messages are disjoint, that control flow is exactly the
dispatch below. -/
def Model.update (m : Model) (msg : Msg) : Model × Cmd :=
  match msg with
  | Msg.exampleMsg i ex err => exampleUpdate m i ex err
  | Msg.key k =>
      if m.addingNewCard then addingKeyUpdate m k else browsingKeyUpdate m k

/-!
## System harness: the event loop with outstanding fetches

The bubbletea runtime delivers messages to `model.Update` one at a time and
runs each returned `fetchExample` command off the loop; its `ExampleMsg`
comes back through the same queue.  `Sys` pairs the model with the
multiset of issued-but-undelivered fetches (by card index), `sysStep`
executes one event, and `sysRun` a sequence from `initSys`.  A `deliver`
event is only enabled for an index with an outstanding fetch.
-/

/-- The model together with the indices of outstanding (issued, not yet
delivered) fetches, in issue order. -/
structure Sys where
  model : Model
  outstanding : List Nat

/-- External events: a key press, or delivery of the result of an
outstanding fetch (success when `error = none`). -/
inductive Event where
  | input (k : Key)
  | deliver (index : Nat) (exampleText : String) (error : Option String)
  deriving Repr, DecidableEq

/-- One step of the event loop.  A key press runs `model.Update`; an
emitted fetch command joins the outstanding list (quit leaves the state as
is — the session merely ends).  A delivery is enabled only for an
outstanding index; it runs the `ExampleMsg` branch and retires one
outstanding entry. -/
def sysStep (s : Sys) (e : Event) : Option Sys :=
  match e with
  | Event.input k =>
      let r := s.model.update (Msg.key k)
      match r.2 with
      | Cmd.fetch _ i => some { model := r.1, outstanding := s.outstanding ++ [i] }
      | _ => some { model := r.1, outstanding := s.outstanding }
  | Event.deliver i ex err =>
      if i ∈ s.outstanding then
        some { model := (s.model.update (Msg.exampleMsg i ex err)).1
               outstanding := s.outstanding.erase i }
      else none

/-- Run a sequence of events from a starting system state. -/
def sysRun : Sys → List Event → Option Sys
  | s, [] => some s
  | s, e :: tr =>
      match sysStep s e with
      | some s1 => sysRun s1 tr
      | none => none

/-- The system state at program start: `initialModel`, no fetch issued. -/
def initSys : Sys :=
  { model := initialModel, outstanding := [] }

/-- Recognizer for the fetch command. -/
def isFetchCmd : Cmd → Bool
  | Cmd.fetch _ _ => true
  | _ => false

/-- The at-most-one-outstanding-fetch property claimed by the spec: along
every reachable execution the number of issued-but-undelivered fetches
never exceeds one. -/
def atMostOneOutstandingFetch : Prop :=
  ∀ tr s, sysRun initSys tr = some s → s.outstanding.length ≤ 1

/-!
## Startup and credential handling

`main` runs `initEnv` (which aborts when the `.env` file cannot be
loaded) and then starts the interactive loop on `initialModel`.  The API
key is only read inside the `fetchExample` closure: `getAPIKey` calls
`os.Getenv("OPENAI_API_KEY")` and `log.Fatal`s — aborting the whole
process — when it is empty.  `Except.error` stands for a fatal abort.
-/

/-- The execution environment as the program observes it: whether
`godotenv.Load()` succeeds, and the value of `OPENAI_API_KEY` after
loading (`""` when unset, as `os.Getenv` reports absence). -/
structure Env where
  dotenvPresent : Bool
  openaiApiKey : String
  deriving Repr, DecidableEq

/-- `getAPIKey` from `main.go`: fatal (`log.Fatal`) when the variable is
empty, otherwise the key. -/
def getAPIKey (env : Env) : Except String String :=
  if env.openaiApiKey = "" then
    Except.error "OPENAI_API_KEY not set in environment variables"
  else Except.ok env.openaiApiKey

/-- `initEnv` from `main.go`: fatal when the `.env` file fails to load. -/
def initEnv (env : Env) : Except String Unit :=
  if env.dotenvPresent then Except.ok ()
  else Except.error "Error loading .env file"

/-- `main` up to entering the interactive loop: run `initEnv`, then hand
`initialModel` to the bubbletea program.  `Except.ok` means the
interactive loop is entered with that model. -/
def startup (env : Env) : Except String Model :=
  match initEnv env with
  | Except.error e => Except.error e
  | Except.ok _ => Except.ok initialModel

/-- The body of the `fetchExample` closure, with the network interaction
abstracted as an oracle `net` from the API key to the resulting
`ExampleMsg` payload: the closure first runs `getAPIKey`, which
fatally aborts on a missing key; only afterwards does any per-call error
reporting (always through the returned message, never an abort) occur. -/
def fetchExampleRun (env : Env) (net : String → String × Option String) :
    Except String (String × Option String) :=
  match getAPIKey env with
  | Except.error e => Except.error e
  | Except.ok key => Except.ok (net key)

/-!
## Helper lemmas
-/

theorem TextInput.update_enter (t : TextInput) : t.update Key.enter = t := rfl

theorem TextInput.update_tab (t : TextInput) : t.update Key.tab = t := rfl

theorem TextInput.update_shiftTab (t : TextInput) : t.update Key.shiftTab = t := rfl

theorem setExample_length (ws : List Word) (i : Nat) (text : String) :
    (setExample ws i text).length = ws.length := by
  induction ws generalizing i with
  | nil => rfl
  | cons w ws ih =>
      cases i with
      | zero => rfl
      | succ j => simpa [setExample] using ih j

theorem setExample_ne_nil (ws : List Word) (i : Nat) (text : String)
    (h : ws ≠ []) : setExample ws i text ≠ [] := by
  intro hcontra
  apply h
  have := setExample_length ws i text
  rw [hcontra] at this
  exact List.length_eq_zero.mp this.symm

theorem setExample_get?_ne (ws : List Word) (i j : Nat) (text : String)
    (h : j ≠ i) : (setExample ws i text).get? j = ws.get? j := by
  induction ws generalizing i j with
  | nil => rfl
  | cons w ws ih =>
      cases i with
      | zero =>
          cases j with
          | zero => exact absurd rfl h
          | succ j2 => rfl
      | succ i2 =>
          cases j with
          | zero => rfl
          | succ j2 =>
              simpa [setExample] using ih i2 j2 (fun hc => h (by rw [hc]))

theorem setExample_get?_eq (ws : List Word) (i : Nat) (text : String)
    (w : Word) (h : ws.get? i = some w) :
    (setExample ws i text).get? i = some { w with exampleText := text } := by
  induction ws generalizing i with
  | nil => simp [List.get?] at h
  | cons w0 ws ih =>
      cases i with
      | zero =>
          simp [List.get?] at h
          subst h
          rfl
      | succ i2 =>
          simpa [setExample] using ih i2 h

theorem browsingKeyUpdate_words (m : Model) (k : Key) :
    (browsingKeyUpdate m k).1.words = m.words := by
  unfold browsingKeyUpdate
  repeat' split
  all_goals rfl

theorem browsingKeyUpdate_index (m : Model) (k : Key)
    (hn : 0 < m.words.length) (hi : m.currentIndex < m.words.length) :
    (browsingKeyUpdate m k).1.currentIndex < m.words.length := by
  unfold browsingKeyUpdate
  repeat' split
  all_goals first
    | exact hi
    | exact Nat.mod_lt _ hn

theorem addingKeyUpdate_shape (m : Model) (k : Key) :
    ((addingKeyUpdate m k).1.words = m.words ∧
      (addingKeyUpdate m k).1.currentIndex = m.currentIndex)
    ∨ ((addingKeyUpdate m k).1.words = m.words ++ [newCardOf m] ∧
      (addingKeyUpdate m k).1.currentIndex = m.words.length) := by
  cases k with
  | enter =>
      simp only [addingKeyUpdate]
      split
      · right
        constructor
        · rfl
        · simp [textUpdate]
      · left
        exact ⟨rfl, rfl⟩
  | ctrlC => left; exact ⟨rfl, rfl⟩
  | esc => left; exact ⟨rfl, rfl⟩
  | tab => left; exact ⟨rfl, rfl⟩
  | shiftTab => left; exact ⟨rfl, rfl⟩
  | space => left; exact ⟨rfl, rfl⟩
  | left => left; exact ⟨rfl, rfl⟩
  | right => left; exact ⟨rfl, rfl⟩
  | char c => left; exact ⟨rfl, rfl⟩

theorem exampleUpdate_words_length (m : Model) (i : Nat) (ex : String)
    (err : Option String) :
    (exampleUpdate m i ex err).1.words.length = m.words.length := by
  cases err with
  | none => simp [exampleUpdate, setExample_length]
  | some e => simp [exampleUpdate, setExample_length]

theorem exampleUpdate_index (m : Model) (i : Nat) (ex : String)
    (err : Option String) :
    (exampleUpdate m i ex err).1.currentIndex = m.currentIndex := by
  cases err with
  | none => rfl
  | some e => rfl

/-- The structural invariant of §3 of the design: the deck is non-empty
and the current index is in bounds. -/
def DeckInv (s : Sys) : Prop :=
  s.model.words ≠ [] ∧ s.model.currentIndex < s.model.words.length

theorem update_preserves_deckInv (m : Model) (msg : Msg)
    (h1 : m.words ≠ []) (h2 : m.currentIndex < m.words.length) :
    (m.update msg).1.words ≠ [] ∧
      (m.update msg).1.currentIndex < (m.update msg).1.words.length := by
  have hn : 0 < m.words.length := List.length_pos.mpr h1
  cases msg with
  | exampleMsg i ex err =>
      cases err with
      | none =>
          simp only [Model.update, exampleUpdate]
          exact ⟨setExample_ne_nil _ _ _ h1, by rw [setExample_length]; exact h2⟩
      | some e =>
          simp only [Model.update, exampleUpdate]
          exact ⟨setExample_ne_nil _ _ _ h1, by rw [setExample_length]; exact h2⟩
  | key k =>
      cases hA : m.addingNewCard with
      | true =>
          have he : m.update (Msg.key k) = addingKeyUpdate m k := by
            simp [Model.update, hA]
          rw [he]
          rcases addingKeyUpdate_shape m k with ⟨hw, hi⟩ | ⟨hw, hi⟩
          · rw [hw, hi]; exact ⟨h1, h2⟩
          · rw [hw, hi]
            exact ⟨by simp, by simp⟩
      | false =>
          have he : m.update (Msg.key k) = browsingKeyUpdate m k := by
            simp [Model.update, hA]
          rw [he]
          rw [browsingKeyUpdate_words]
          exact ⟨h1, browsingKeyUpdate_index m k hn h2⟩

/-- Every successful system step runs `model.Update` on exactly one
message; the resulting model is the updated one. -/
theorem sysStep_model (s : Sys) (e : Event) (s1 : Sys)
    (hs : sysStep s e = some s1) :
    (∃ k, e = Event.input k ∧ s1.model = (s.model.update (Msg.key k)).1) ∨
    (∃ i ex err, e = Event.deliver i ex err ∧
      s1.model = (s.model.update (Msg.exampleMsg i ex err)).1) := by
  cases e with
  | input k =>
      left
      refine ⟨k, rfl, ?_⟩
      simp only [sysStep] at hs
      cases hc : (s.model.update (Msg.key k)).2 with
      | fetch w i =>
          rw [hc] at hs
          rw [← Option.some.inj hs]
      | none =>
          rw [hc] at hs
          rw [← Option.some.inj hs]
      | quit =>
          rw [hc] at hs
          rw [← Option.some.inj hs]
  | deliver i ex err =>
      right
      refine ⟨i, ex, err, rfl, ?_⟩
      simp only [sysStep] at hs
      split at hs
      · rw [← Option.some.inj hs]
      · cases hs

theorem sysStep_preserves_deckInv (s s1 : Sys) (e : Event)
    (h : DeckInv s) (hs : sysStep s e = some s1) : DeckInv s1 := by
  rcases sysStep_model s e s1 hs with ⟨k, _, hm⟩ | ⟨i, ex, err, _, hm⟩
  · have hu := update_preserves_deckInv s.model (Msg.key k) h.1 h.2
    exact ⟨hm ▸ hu.1, hm ▸ hu.2⟩
  · have hu := update_preserves_deckInv s.model (Msg.exampleMsg i ex err) h.1 h.2
    exact ⟨hm ▸ hu.1, hm ▸ hu.2⟩

theorem sysRun_preserves_deckInv (tr : List Event) (s0 s : Sys)
    (h0 : DeckInv s0) (h : sysRun s0 tr = some s) : DeckInv s := by
  induction tr generalizing s0 with
  | nil =>
      simp only [sysRun] at h
      rw [← Option.some.inj h]
      exact h0
  | cons e tr ih =>
      unfold sysRun at h
      revert h
      cases hs : sysStep s0 e with
      | none => intro h; cases h
      | some s1 =>
          intro h
          exact ih s1 (sysStep_preserves_deckInv s0 s1 e h0 hs) h

theorem addingKeyUpdate_cmd (m : Model) (k : Key) :
    (addingKeyUpdate m k).2 = Cmd.none := by
  cases k <;> rfl

theorem addingKeyUpdate_flags (m : Model) (k : Key) :
    (addingKeyUpdate m k).1.showDetails = m.showDetails ∧
      (addingKeyUpdate m k).1.loadingExample = m.loadingExample := by
  cases k with
  | enter =>
      simp only [addingKeyUpdate]
      split
      · exact ⟨rfl, rfl⟩
      · exact ⟨rfl, rfl⟩
  | ctrlC => exact ⟨rfl, rfl⟩
  | esc => exact ⟨rfl, rfl⟩
  | tab => exact ⟨rfl, rfl⟩
  | shiftTab => exact ⟨rfl, rfl⟩
  | space => exact ⟨rfl, rfl⟩
  | left => exact ⟨rfl, rfl⟩
  | right => exact ⟨rfl, rfl⟩
  | char c => exact ⟨rfl, rfl⟩

theorem browsingKeyUpdate_flags (m : Model) (k : Key)
    (h : m.showDetails = false → m.loadingExample = false) :
    (browsingKeyUpdate m k).1.showDetails = false →
      (browsingKeyUpdate m k).1.loadingExample = false := by
  unfold browsingKeyUpdate
  repeat' split
  all_goals intro h2
  all_goals first
    | rfl
    | exact h h2
    | exact Bool.noConfusion h2

/-- The detail flags invariant: outside the details view the loading flag
is down. -/
def FlagsInv (s : Sys) : Prop :=
  s.model.showDetails = false → s.model.loadingExample = false

theorem update_preserves_flagsInv (m : Model) (msg : Msg)
    (h : m.showDetails = false → m.loadingExample = false) :
    (m.update msg).1.showDetails = false →
      (m.update msg).1.loadingExample = false := by
  cases msg with
  | exampleMsg i ex err =>
      cases err with
      | none => intro _; rfl
      | some e => intro _; rfl
  | key k =>
      cases hA : m.addingNewCard with
      | true =>
          have he : m.update (Msg.key k) = addingKeyUpdate m k := by
            simp [Model.update, hA]
          rw [he]
          rw [(addingKeyUpdate_flags m k).1, (addingKeyUpdate_flags m k).2]
          exact h
      | false =>
          have he : m.update (Msg.key k) = browsingKeyUpdate m k := by
            simp [Model.update, hA]
          rw [he]
          exact browsingKeyUpdate_flags m k h

theorem sysRun_preserves_flagsInv (tr : List Event) (s0 s : Sys)
    (h0 : FlagsInv s0) (h : sysRun s0 tr = some s) : FlagsInv s := by
  induction tr generalizing s0 with
  | nil =>
      simp only [sysRun] at h
      rw [← Option.some.inj h]
      exact h0
  | cons e tr ih =>
      unfold sysRun at h
      revert h
      cases hs : sysStep s0 e with
      | none => intro h; cases h
      | some s1 =>
          intro h
          refine ih s1 ?_ h
          rcases sysStep_model s0 e s1 hs with ⟨k, _, hm⟩ | ⟨i, ex, err, _, hm⟩
          · show s1.model.showDetails = false → _
            rw [hm]
            exact update_preserves_flagsInv s0.model (Msg.key k) h0
          · show s1.model.showDetails = false → _
            rw [hm]
            exact update_preserves_flagsInv s0.model (Msg.exampleMsg i ex err) h0

/-- A fetch command can only be emitted from Browsing mode with the
details view off. -/
theorem fetch_requires_browsing_noDetails (m : Model) (k : Key)
    (hf : isFetchCmd (m.update (Msg.key k)).2 = true) :
    m.addingNewCard = false ∧ m.showDetails = false := by
  cases hA : m.addingNewCard with
  | true =>
      have he : m.update (Msg.key k) = addingKeyUpdate m k := by
        simp [Model.update, hA]
      rw [he, addingKeyUpdate_cmd] at hf
      simp [isFetchCmd] at hf
  | false =>
      refine ⟨rfl, ?_⟩
      have he : m.update (Msg.key k) = browsingKeyUpdate m k := by
        simp [Model.update, hA]
      rw [he] at hf
      unfold browsingKeyUpdate at hf
      by_cases h1 : k = Key.ctrlC ∨ k = Key.char 'q'
      · rw [if_pos h1] at hf; simp [isFetchCmd] at hf
      rw [if_neg h1] at hf
      by_cases h2 : k = Key.right ∨ k = Key.char 'l'
      · rw [if_pos h2] at hf; simp [isFetchCmd] at hf
      rw [if_neg h2] at hf
      by_cases h3 : k = Key.left ∨ k = Key.char 'h'
      · rw [if_pos h3] at hf; simp [isFetchCmd] at hf
      rw [if_neg h3] at hf
      by_cases h4 : k = Key.space ∨ k = Key.enter
      · rw [if_pos h4] at hf
        by_cases h5 : m.showDetails = true
        · rw [if_neg (by simp [h5])] at hf
          simp [isFetchCmd] at hf
        · simp at h5
          exact h5
      · rw [if_neg h4] at hf
        by_cases h6 : k = Key.char 'a'
        · rw [if_pos h6] at hf; simp [isFetchCmd] at hf
        · rw [if_neg h6] at hf; simp [isFetchCmd] at hf

/-- One "next" keystroke (right arrow / `l`). -/
def nextStep (m : Model) : Model := (m.update (Msg.key Key.right)).1

/-- One "previous" keystroke (left arrow / `h`). -/
def prevStep (m : Model) : Model := (m.update (Msg.key Key.left)).1

theorem nextStep_eq (m : Model) (hA : m.addingNewCard = false) :
    nextStep m = { m with currentIndex := (m.currentIndex + 1) % m.words.length
                          showDetails := false
                          loadingExample := false } := by
  unfold nextStep
  have he : m.update (Msg.key Key.right) = browsingKeyUpdate m Key.right := by
    simp [Model.update, hA]
  rw [he]
  unfold browsingKeyUpdate
  rw [if_neg (by decide), if_pos (by decide)]

theorem prevStep_eq (m : Model) (hA : m.addingNewCard = false) :
    prevStep m
      = { m with currentIndex := (m.currentIndex + m.words.length - 1) % m.words.length
                 showDetails := false
                 loadingExample := false } := by
  unfold prevStep
  have he : m.update (Msg.key Key.left) = browsingKeyUpdate m Key.left := by
    simp [Model.update, hA]
  rw [he]
  unfold browsingKeyUpdate
  rw [if_neg (by decide), if_neg (by decide), if_pos (by decide)]

theorem prev_next_index (n i : Nat) (hi : i < n) :
    ((i + 1) % n + n - 1) % n = i := by
  by_cases h : i + 1 = n
  · subst h
    simp [Nat.mod_self, Nat.mod_eq_of_lt (Nat.lt_succ_self i)]
  · have hlt : i + 1 < n := by omega
    rw [Nat.mod_eq_of_lt hlt]
    have h2 : i + 1 + n - 1 = i + n := by omega
    rw [h2, Nat.add_mod_right, Nat.mod_eq_of_lt hi]

theorem next_prev_index (n i : Nat) (hi : i < n) :
    ((i + n - 1) % n + 1) % n = i := by
  by_cases h : i = 0
  · subst h
    have hn : 0 < n := hi
    have h1 : n - 1 < n := by omega
    rw [Nat.zero_add, Nat.mod_eq_of_lt h1]
    have h2 : n - 1 + 1 = n := by omega
    rw [h2, Nat.mod_self]
  · have h2 : i + n - 1 = (i - 1) + n := by omega
    rw [h2, Nat.add_mod_right]
    have h3 : i - 1 < n := by omega
    rw [Nat.mod_eq_of_lt h3]
    have h4 : i - 1 + 1 = i := by omega
    rw [h4, Nat.mod_eq_of_lt hi]

theorem nextStep_iterate (m : Model) (hA : m.addingNewCard = false)
    (hi : m.currentIndex < m.words.length) (j : Nat) :
    (nextStep^[j] m).words = m.words ∧
    (nextStep^[j] m).addingNewCard = false ∧
    (nextStep^[j] m).currentIndex = (m.currentIndex + j) % m.words.length := by
  induction j with
  | zero =>
      refine ⟨rfl, hA, ?_⟩
      have hn : 0 < m.words.length := Nat.lt_of_le_of_lt (Nat.zero_le _) hi
      simp [Nat.mod_eq_of_lt hi]
  | succ j ih =>
      rw [Function.iterate_succ_apply']
      rcases ih with ⟨hw, hb, hidx⟩
      rw [nextStep_eq _ hb]
      refine ⟨hw, hb, ?_⟩
      show ((nextStep^[j] m).currentIndex + 1) % (nextStep^[j] m).words.length
          = (m.currentIndex + (j + 1)) % m.words.length
      rw [hw, hidx, Nat.mod_add_mod, Nat.add_assoc]

/-!
## Claim theorems
-/

/-- A concrete Adding-mode state with all four buffers filled
("x"/"y"/"z" required, "w" in the optional example buffer). -/
def mAdd : Model :=
  { words := exampleWords
    currentIndex := 0
    showDetails := false
    addingNewCard := true
    inputs := fun i =>
      { value :=
          if i.val = 0 then "x" else if i.val = 1 then "y"
          else if i.val = 2 then "z" else "w"
        focused := i.val == 3
        charLimit := 50 }
    focusIndex := 3
    loadingExample := false }

/-- A concrete Adding-mode state with all buffers empty. -/
def mAddEmpty : Model :=
  { initialModel with addingNewCard := true }

/-- The initial model moved to card 2, whose seed example text is
non-empty. -/
def mBrowse2 : Model :=
  { initialModel with currentIndex := 2 }

/-- A reachable session that enters Adding mode and types "x", tab, "y",
tab, "z", tab, "w" — filling all four buffers. -/
def c1Trace : List Event :=
  [ Event.input (Key.char 'a'), Event.input (Key.char 'x'), Event.input Key.tab,
    Event.input (Key.char 'y'), Event.input Key.tab, Event.input (Key.char 'z'),
    Event.input Key.tab, Event.input (Key.char 'w') ]

/-- C1: the claim that the appended card's example equals buffer 3 is
false.  In the reachable Adding-mode state where the four buffers hold
"x", "y", "z", "w", pressing Enter appends a card whose example field is
`""`, not `"w"`. -/
theorem C1_counterexample :
    ((sysRun initSys c1Trace).map (fun s =>
      (s.model.addingNewCard,
        (s.model.inputs 0).value, (s.model.inputs 1).value,
        (s.model.inputs 2).value, (s.model.inputs 3).value,
        ((s.model.update (Msg.key Key.enter)).1.words.getLast?.map Word.exampleText)))
      = some (true, "x", "y", "z", "w", some "")) ∧
    some ("" : String) ≠ some ("w" : String) :=
  ⟨by rfl, by decide⟩

/-- C1 (amended): in Adding mode, pressing Enter with the first three
buffers non-empty appends a WordCard whose example field is always the
empty string; the value of form buffer 3 is discarded. -/
theorem C1_saved_example_always_empty (m : Model) (hA : m.addingNewCard = true)
    (h0 : (m.inputs 0).value ≠ "") (h1 : (m.inputs 1).value ≠ "")
    (h2 : (m.inputs 2).value ≠ "") :
    (m.update (Msg.key Key.enter)).1.words
      = m.words ++ [{ chinese := (m.inputs 0).value, pinyin := (m.inputs 1).value,
                      definition := (m.inputs 2).value, exampleText := "" }] := by
  have he : m.update (Msg.key Key.enter) = addingKeyUpdate m Key.enter := by
    simp [Model.update, hA]
  rw [he]
  simp only [addingKeyUpdate]
  split
  · rfl
  · rename_i hcond
    exact absurd ⟨h0, h1, h2⟩ hcond

/-- Witness for `C1_saved_example_always_empty` at the concrete state
`mAdd`. -/
theorem C1_saved_example_always_empty_witness :
    (mAdd.update (Msg.key Key.enter)).1.words
      = mAdd.words ++ [{ chinese := "x", pinyin := "y", definition := "z",
                         exampleText := "" }] :=
  C1_saved_example_always_empty mAdd rfl (by decide) (by decide) (by decide)

/-- C2: delivering a FetchResult clears the loading flag, rewrites
exactly the example field of the card at the result's original index
(with the `"Error: "` prefix on errors), and changes nothing else —
regardless of where the user has navigated meanwhile. -/
theorem C2_fetch_merge (m : Model) (idx : Nat) (ex : String)
    (err : Option String) (_hidx : idx < m.words.length) :
    (m.update (Msg.exampleMsg idx ex err)).2 = Cmd.none ∧
    (m.update (Msg.exampleMsg idx ex err)).1.loadingExample = false ∧
    (m.update (Msg.exampleMsg idx ex err)).1.words.length = m.words.length ∧
    (∀ j, j ≠ idx →
      (m.update (Msg.exampleMsg idx ex err)).1.words.get? j = m.words.get? j) ∧
    (∀ w, m.words.get? idx = some w →
      (m.update (Msg.exampleMsg idx ex err)).1.words.get? idx
        = some { w with exampleText := match err with
                  | some e => "Error: " ++ e
                  | none => ex }) ∧
    (m.update (Msg.exampleMsg idx ex err)).1.currentIndex = m.currentIndex ∧
    (m.update (Msg.exampleMsg idx ex err)).1.showDetails = m.showDetails ∧
    (m.update (Msg.exampleMsg idx ex err)).1.addingNewCard = m.addingNewCard ∧
    (m.update (Msg.exampleMsg idx ex err)).1.inputs = m.inputs ∧
    (m.update (Msg.exampleMsg idx ex err)).1.focusIndex = m.focusIndex := by
  cases err with
  | none =>
      refine ⟨rfl, rfl, setExample_length m.words idx ex, ?_, ?_, rfl, rfl, rfl, rfl, rfl⟩
      · intro j hj
        exact setExample_get?_ne m.words idx j ex hj
      · intro w hw
        exact setExample_get?_eq m.words idx ex w hw
  | some e =>
      refine ⟨rfl, rfl, setExample_length m.words idx ("Error: " ++ e), ?_, ?_,
        rfl, rfl, rfl, rfl, rfl⟩
      · intro j hj
        exact setExample_get?_ne m.words idx j ("Error: " ++ e) hj
      · intro w hw
        exact setExample_get?_eq m.words idx ("Error: " ++ e) w hw

/-- Witness for `C2_fetch_merge`: a failed fetch for card 1 delivered
while the user is still on card 0 writes `"Error: timeout"` into card 1
and clears the loading flag. -/
theorem C2_fetch_merge_witness :
    (initialModel.update (Msg.exampleMsg 1 "" (some "timeout"))).1.words.get? 1
      = some { pinyin := "xiè xiè", chinese := "谢谢", definition := "Thank you",
               exampleText := "Error: timeout" } ∧
    (initialModel.update (Msg.exampleMsg 1 "" (some "timeout"))).1.loadingExample = false ∧
    initialModel.currentIndex ≠ 1 := by
  refine ⟨?_, ?_, by decide⟩
  · exact (C2_fetch_merge initialModel 1 "" (some "timeout") (by decide)).2.2.2.2.1 _ rfl
  · exact (C2_fetch_merge initialModel 1 "" (some "timeout") (by decide)).2.1

/-- C3: the at-most-one-outstanding-fetch claim is false.  From the
initial state, toggling details on, off, and on again (three space
presses) issues a second fetch for card 0 while the first is still
undelivered, leaving two outstanding fetches. -/
theorem C3_counterexample : ¬ atMostOneOutstandingFetch := by
  intro h
  have hrun : (sysRun initSys [Event.input Key.space, Event.input Key.space,
      Event.input Key.space]).map (fun s => s.outstanding.length) = some 2 := by rfl
  revert hrun
  cases heq : sysRun initSys [Event.input Key.space, Event.input Key.space,
      Event.input Key.space] with
  | none => intro hrun; exact Option.noConfusion hrun
  | some s =>
      intro hrun
      have hle := h _ s heq
      have h2 : s.outstanding.length = 2 := Option.some.inj hrun
      omega

/-- C3 (amended): a fetch is only ever issued from a state in which
`loadingExample` is false — but since toggling off or navigating clears
the flag without cancelling the in-flight request, this does not bound
the number of outstanding fetches (see the counterexample). -/
theorem C3_fetch_only_when_not_loading (tr : List Event) (s : Sys) (k : Key)
    (h : sysRun initSys tr = some s)
    (hf : isFetchCmd (s.model.update (Msg.key k)).2 = true) :
    s.model.loadingExample = false := by
  have hflags : FlagsInv s :=
    sysRun_preserves_flagsInv tr initSys s (fun _ => rfl) h
  have hshape := fetch_requires_browsing_noDetails s.model k hf
  exact hflags hshape.2

/-- Witness for `C3_fetch_only_when_not_loading`: the empty trace and the
space key, which issues the very first fetch. -/
theorem C3_fetch_only_when_not_loading_witness :
    sysRun initSys [] = some initSys ∧
    isFetchCmd (initSys.model.update (Msg.key Key.space)).2 = true ∧
    initSys.model.loadingExample = false :=
  ⟨rfl, rfl, C3_fetch_only_when_not_loading [] initSys Key.space rfl rfl⟩

/-- C4: saving with the three required buffers non-empty grows the deck
by one, moves `currentIndex` to the new last card, leaves Adding mode,
clears all four buffers and puts the focus index back to 0. -/
theorem C4_save_complete (m : Model) (hA : m.addingNewCard = true)
    (h0 : (m.inputs 0).value ≠ "") (h1 : (m.inputs 1).value ≠ "")
    (h2 : (m.inputs 2).value ≠ "") :
    (m.update (Msg.key Key.enter)).1.words.length = m.words.length + 1 ∧
    (m.update (Msg.key Key.enter)).1.currentIndex
      = (m.update (Msg.key Key.enter)).1.words.length - 1 ∧
    (m.update (Msg.key Key.enter)).1.addingNewCard = false ∧
    (∀ i : Fin 4, ((m.update (Msg.key Key.enter)).1.inputs i).value = "") ∧
    (m.update (Msg.key Key.enter)).1.focusIndex = 0 ∧
    (m.update (Msg.key Key.enter)).2 = Cmd.none := by
  have he : m.update (Msg.key Key.enter) = addingKeyUpdate m Key.enter := by
    simp [Model.update, hA]
  rw [he]
  simp only [addingKeyUpdate]
  split
  · refine ⟨?_, rfl, rfl, fun i => rfl, rfl, trivial⟩
    simp [textUpdate]
  · rename_i hcond
    exact absurd ⟨h0, h1, h2⟩ hcond

/-- Witness for `C4_save_complete` at the concrete state `mAdd`. -/
theorem C4_save_complete_witness :
    (mAdd.update (Msg.key Key.enter)).1.words.length = mAdd.words.length + 1 ∧
    (mAdd.update (Msg.key Key.enter)).1.currentIndex
      = (mAdd.update (Msg.key Key.enter)).1.words.length - 1 ∧
    (mAdd.update (Msg.key Key.enter)).1.addingNewCard = false ∧
    ((mAdd.update (Msg.key Key.enter)).1.inputs 0).value = "" ∧
    ((mAdd.update (Msg.key Key.enter)).1.inputs 1).value = "" ∧
    ((mAdd.update (Msg.key Key.enter)).1.inputs 2).value = "" ∧
    ((mAdd.update (Msg.key Key.enter)).1.inputs 3).value = "" ∧
    (mAdd.update (Msg.key Key.enter)).1.focusIndex = 0 := by
  have h := C4_save_complete mAdd rfl (by decide) (by decide) (by decide)
  exact ⟨h.1, h.2.1, h.2.2.1, h.2.2.2.1 0, h.2.2.2.1 1, h.2.2.2.1 2,
    h.2.2.2.1 3, h.2.2.2.2.1⟩

/-- C5: along every reachable execution the deck stays non-empty and
`currentIndex` stays strictly below the deck length, so indexed reads at
`currentIndex` are in bounds and the `% len(words)` navigation never
divides by zero. -/
theorem C5_deck_invariants (tr : List Event) (s : Sys)
    (h : sysRun initSys tr = some s) :
    s.model.words ≠ [] ∧ s.model.currentIndex < s.model.words.length :=
  sysRun_preserves_deckInv tr initSys s ⟨by decide, by decide⟩ h

/-- Witness for `C5_deck_invariants` at the empty trace. -/
theorem C5_deck_invariants_witness :
    initSys.model.words ≠ [] ∧
      initSys.model.currentIndex < initSys.model.words.length :=
  C5_deck_invariants [] initSys rfl

/-- C6: with a non-empty deck and an in-bounds index, "next" applied
`size()` times returns `currentIndex` to its start, and "previous" after
"next" (and "next" after "previous") restores it — the two navigation
keys are mutually inverse cyclic shifts. -/
theorem C6_navigation_cyclic (m : Model) (hA : m.addingNewCard = false)
    (hi : m.currentIndex < m.words.length) :
    (nextStep^[m.words.length] m).currentIndex = m.currentIndex ∧
    (prevStep (nextStep m)).currentIndex = m.currentIndex ∧
    (nextStep (prevStep m)).currentIndex = m.currentIndex := by
  have hnf : (nextStep m).words = m.words ∧ (nextStep m).addingNewCard = false ∧
      (nextStep m).currentIndex = (m.currentIndex + 1) % m.words.length := by
    rw [nextStep_eq m hA]
    exact ⟨rfl, hA, rfl⟩
  have hpf : (prevStep m).words = m.words ∧ (prevStep m).addingNewCard = false ∧
      (prevStep m).currentIndex
        = (m.currentIndex + m.words.length - 1) % m.words.length := by
    rw [prevStep_eq m hA]
    exact ⟨rfl, hA, rfl⟩
  refine ⟨?_, ?_, ?_⟩
  · have h := (nextStep_iterate m hA hi m.words.length).2.2
    rw [h, Nat.add_mod_right, Nat.mod_eq_of_lt hi]
  · have hp : (prevStep (nextStep m)).currentIndex
        = ((nextStep m).currentIndex + (nextStep m).words.length - 1)
            % (nextStep m).words.length := by
      rw [prevStep_eq (nextStep m) hnf.2.1]
    rw [hp, hnf.2.2, hnf.1]
    exact prev_next_index m.words.length m.currentIndex hi
  · have hn : (nextStep (prevStep m)).currentIndex
        = ((prevStep m).currentIndex + 1) % (prevStep m).words.length := by
      rw [nextStep_eq (prevStep m) hpf.2.1]
    rw [hn, hpf.2.2, hpf.1]
    exact next_prev_index m.words.length m.currentIndex hi

/-- Witness for `C6_navigation_cyclic` at the initial model (deck of
ten cards, index 0). -/
theorem C6_navigation_cyclic_witness :
    (nextStep^[initialModel.words.length] initialModel).currentIndex
      = initialModel.currentIndex ∧
    (prevStep (nextStep initialModel)).currentIndex = initialModel.currentIndex ∧
    (nextStep (prevStep initialModel)).currentIndex = initialModel.currentIndex :=
  C6_navigation_cyclic initialModel rfl (by decide)

/-- The environment with a loadable `.env` file that does not define
`OPENAI_API_KEY`. -/
def envNoKey : Env :=
  { dotenvPresent := true, openaiApiKey := "" }

/-- C7: the claim that a missing credential aborts the process before the
interactive loop is false.  With a loadable `.env` and no
`OPENAI_API_KEY`, startup succeeds and the interactive loop is entered on
`initialModel`; the credential check only fires (fatally) inside
`getAPIKey`, which `fetchExample` calls at fetch time. -/
theorem C7_counterexample :
    startup envNoKey = Except.ok initialModel ∧
    getAPIKey envNoKey
      = Except.error "OPENAI_API_KEY not set in environment variables" :=
  ⟨rfl, rfl⟩

/-- C7 (amended): a missing credential is not checked at startup — the
interactive loop is entered normally — but the first fetch aborts the
whole process inside `getAPIKey` (`log.Fatal`), so a missing credential
is indeed never surfaced as a per-call fetch error. -/
theorem C7_missing_key_fatal_at_first_fetch (env : Env)
    (hd : env.dotenvPresent = true) (hk : env.openaiApiKey = "") :
    startup env = Except.ok initialModel ∧
    ∀ net : String → String × Option String,
      fetchExampleRun env net
        = Except.error "OPENAI_API_KEY not set in environment variables" := by
  constructor
  · simp [startup, initEnv, hd]
  · intro net
    simp [fetchExampleRun, getAPIKey, hk]

/-- Witness for `C7_missing_key_fatal_at_first_fetch` at `envNoKey`. -/
theorem C7_missing_key_fatal_at_first_fetch_witness :
    startup envNoKey = Except.ok initialModel ∧
    ∀ net : String → String × Option String,
      fetchExampleRun envNoKey net
        = Except.error "OPENAI_API_KEY not set in environment variables" :=
  C7_missing_key_fatal_at_first_fetch envNoKey rfl rfl

/-- A reachable session: enter Adding mode, type "x" into field 0, cancel
with Esc, and enter Adding mode again. -/
def c8Trace : List Event :=
  [ Event.input (Key.char 'a'), Event.input (Key.char 'x'), Event.input Key.esc,
    Event.input (Key.char 'a') ]

/-- C8: the claim that entering Adding mode clears all four buffers is
false.  After typing "x", cancelling, and re-entering Adding mode, buffer
0 still holds "x" (only the focus index is put back to 0). -/
theorem C8_counterexample :
    ((sysRun initSys c8Trace).map (fun s =>
      (s.model.addingNewCard, (s.model.inputs 0).value, s.model.focusIndex))
      = some (true, "x", 0)) ∧
    ("x" : String) ≠ "" :=
  ⟨by rfl, by decide⟩

/-- A Browsing-mode state whose form buffers are dirty. -/
def mDirty : Model :=
  { initialModel with
    inputs := fun i => { value := "x", focused := i.val == 0, charLimit := 50 } }

/-- C8 (amended): entering Adding mode sets the focus index to 0 and
focuses buffer 0 but retains the buffer contents; all four buffers are
cleared (with focus 0) only by a successful save; cancel resets nothing —
it only leaves Adding mode. -/
theorem C8_reset_only_on_save (m mA : Model) (hB : m.addingNewCard = false)
    (hA : mA.addingNewCard = true)
    (h0 : (mA.inputs 0).value ≠ "") (h1 : (mA.inputs 1).value ≠ "")
    (h2 : (mA.inputs 2).value ≠ "") :
    (m.update (Msg.key (Key.char 'a'))).1.addingNewCard = true ∧
    (m.update (Msg.key (Key.char 'a'))).1.focusIndex = 0 ∧
    (∀ i : Fin 4,
      ((m.update (Msg.key (Key.char 'a'))).1.inputs i).value = (m.inputs i).value) ∧
    mA.update (Msg.key Key.esc) = ({ mA with addingNewCard := false }, Cmd.none) ∧
    (∀ i : Fin 4, ((mA.update (Msg.key Key.enter)).1.inputs i).value = "") ∧
    (mA.update (Msg.key Key.enter)).1.focusIndex = 0 := by
  have heA : m.update (Msg.key (Key.char 'a')) = browsingKeyUpdate m (Key.char 'a') := by
    simp [Model.update, hB]
  have heEsc : mA.update (Msg.key Key.esc) = addingKeyUpdate mA Key.esc := by
    simp [Model.update, hA]
  have heEnter : mA.update (Msg.key Key.enter) = addingKeyUpdate mA Key.enter := by
    simp [Model.update, hA]
  have hbrows : browsingKeyUpdate m (Key.char 'a')
      = ({ m with addingNewCard := true
                  focusIndex := 0
                  inputs := fun i =>
                    if i.val = 0 then (m.inputs i).focus else (m.inputs i).blur },
         Cmd.none) := by
    unfold browsingKeyUpdate
    rw [if_neg (by decide), if_neg (by decide), if_neg (by decide),
        if_neg (by decide), if_pos (by decide)]
  refine ⟨?_, ?_, ?_, ?_, ?_, ?_⟩
  · rw [heA, hbrows]
  · rw [heA, hbrows]
  · intro i
    rw [heA, hbrows]
    show (if i.val = 0 then (m.inputs i).focus else (m.inputs i).blur).value
        = (m.inputs i).value
    by_cases hi0 : i.val = 0
    · rw [if_pos hi0]; rfl
    · rw [if_neg hi0]; rfl
  · rw [heEsc]
    rfl
  · intro i
    rw [heEnter]
    simp only [addingKeyUpdate]
    split
    · rfl
    · rename_i hcond
      exact absurd ⟨h0, h1, h2⟩ hcond
  · rw [heEnter]
    simp only [addingKeyUpdate]
    split
    · rfl
    · rename_i hcond
      exact absurd ⟨h0, h1, h2⟩ hcond

/-- Witness for `C8_reset_only_on_save` at the concrete states `mDirty`
(Browsing with dirty buffers) and `mAdd` (Adding with filled buffers). -/
theorem C8_reset_only_on_save_witness :
    (mDirty.update (Msg.key (Key.char 'a'))).1.addingNewCard = true ∧
    (mDirty.update (Msg.key (Key.char 'a'))).1.focusIndex = 0 ∧
    ((mDirty.update (Msg.key (Key.char 'a'))).1.inputs 0).value
      = (mDirty.inputs 0).value ∧
    ((mDirty.update (Msg.key (Key.char 'a'))).1.inputs 3).value
      = (mDirty.inputs 3).value ∧
    mAdd.update (Msg.key Key.esc) = ({ mAdd with addingNewCard := false }, Cmd.none) ∧
    ((mAdd.update (Msg.key Key.enter)).1.inputs 3).value = "" ∧
    (mAdd.update (Msg.key Key.enter)).1.focusIndex = 0 := by
  have h := C8_reset_only_on_save mDirty mAdd rfl rfl (by decide) (by decide) (by decide)
  exact ⟨h.1, h.2.1, h.2.2.1 0, h.2.2.1 3, h.2.2.2.1, h.2.2.2.2.1 3, h.2.2.2.2.2⟩

/-- C9: in Adding mode, Enter with any required buffer empty is a no-op —
the model (deck, mode, buffers, focus) is returned unchanged and no
command or error is emitted. -/
theorem C9_incomplete_save_ignored (m : Model) (hA : m.addingNewCard = true)
    (h : (m.inputs 0).value = "" ∨ (m.inputs 1).value = "" ∨
      (m.inputs 2).value = "") :
    m.update (Msg.key Key.enter) = (m, Cmd.none) := by
  have he : m.update (Msg.key Key.enter) = addingKeyUpdate m Key.enter := by
    simp [Model.update, hA]
  have ht : textUpdate m Key.enter = m := by
    show { m with inputs := fun i => (m.inputs i).update Key.enter } = m
    have hfun : (fun i => (m.inputs i).update Key.enter) = m.inputs :=
      funext fun i => rfl
    rw [hfun]
  rw [he]
  simp only [addingKeyUpdate]
  split
  · rename_i hcond
    rcases hcond with ⟨hc0, hc1, hc2⟩
    rcases h with h | h | h
    · exact absurd h hc0
    · exact absurd h hc1
    · exact absurd h hc2
  · rw [ht]

/-- Witness for `C9_incomplete_save_ignored` at the all-empty Adding
state. -/
theorem C9_incomplete_save_ignored_witness :
    mAddEmpty.update (Msg.key Key.enter) = (mAddEmpty, Cmd.none) :=
  C9_incomplete_save_ignored mAddEmpty rfl (Or.inl rfl)

/-- C10: in Browsing mode with the details view off, the toggle key
(space or enter) always raises `loadingExample` and issues a fetch for the
current card — the statement holds for every model, in particular when the
card's example field is already non-empty, so no cached example is ever
reused. -/
theorem C10_toggle_always_fetches (m : Model) (hA : m.addingNewCard = false)
    (hS : m.showDetails = false) :
    m.update (Msg.key Key.space)
      = ({ m with showDetails := true, loadingExample := true },
         Cmd.fetch (getWord m.words m.currentIndex) m.currentIndex) ∧
    m.update (Msg.key Key.enter)
      = ({ m with showDetails := true, loadingExample := true },
         Cmd.fetch (getWord m.words m.currentIndex) m.currentIndex) := by
  constructor
  · have he : m.update (Msg.key Key.space) = browsingKeyUpdate m Key.space := by
      simp [Model.update, hA]
    rw [he]
    unfold browsingKeyUpdate
    rw [if_neg (by decide), if_neg (by decide), if_neg (by decide),
        if_pos (by decide), if_pos (by simp [hS])]
  · have he : m.update (Msg.key Key.enter) = browsingKeyUpdate m Key.enter := by
      simp [Model.update, hA]
    rw [he]
    unfold browsingKeyUpdate
    rw [if_neg (by decide), if_neg (by decide), if_neg (by decide),
        if_pos (by decide), if_pos (by simp [hS])]

/-- Witness for `C10_toggle_always_fetches` at card 2 of the seed deck,
whose example text is already non-empty: the fetch is issued anyway. -/
theorem C10_toggle_always_fetches_witness :
    (getWord mBrowse2.words mBrowse2.currentIndex).exampleText ≠ "" ∧
    mBrowse2.update (Msg.key Key.space)
      = ({ mBrowse2 with showDetails := true, loadingExample := true },
         Cmd.fetch (getWord mBrowse2.words mBrowse2.currentIndex)
           mBrowse2.currentIndex) := by
  refine ⟨by decide, ?_⟩
  exact (C10_toggle_always_fetches mBrowse2 rfl rfl).1
